import Mathlib

set_option autoImplicit false

/-!
Verification development for the browser-keepalive CLI.

The JavaScript sources (src/utils.js, src/engines.js, src/cli.js) are shallowly
embedded below.  Modelling conventions:

* WHATWG URLs are modelled as a stem (scheme://host/path, kept verbatim), an
  ordered list of query parameters, and an optional fragment.  `parseUrl`
  models `new URL(s)` succeeding; it accepts absolute `scheme://host...` URLs
  whose characters need no percent-encoding (the strings actually handled by
  the keepalive loop).  Serialisation keeps characters verbatim; the WHATWG
  normalisation that rewrites the stem is not modelled, since every claim
  compares two strings that went through the same parse/serialise pipeline.
* `Date.now()` is modelled as a natural-number timestamp parameter and
  `Math.random().toString(36).slice(2, 6)` as an explicit list of base-36
  characters (of length at most 4) passed to `withCacheBuster`.
* JavaScript numbers reaching the validators are modelled by `JsNum`
  (NaN, infinities, or a rational); `Number(string)` conversion itself is
  out of scope and its result is taken as the input.
* Fallible code returns `Except String`; thrown errors are the `.error` case,
  carrying the message.  Effects of the main loop (sleeping, reading the stop
  flag, the session returning or throwing) are passed in as explicit oracle
  records, one observation per read, exactly in source order.
-/

/-- Single-quote character (code 39), used to build the literal error-message
substrings from utils.js without embedding quote characters in the file. -/
def sqChar : Char := Char.ofNat 39

/-- JavaScript `String.prototype.includes` restricted to nonempty patterns:
substring containment. -/
def jsIncludes (s pat : String) : Bool :=
  decide (pat.toList <:+: s.toList)

/-- Base-36 digit character, as produced by `Number.prototype.toString(36)`:
0-9 then a-z. -/
def digit36 (n : Nat) : Char :=
  if n < 10 then Char.ofNat (48 + n) else Char.ofNat (87 + n)

/-- Fuel-driven base-36 conversion loop (most significant digit first).  The
fuel is always at least the number being converted, which makes the fallback
branch unreachable for the actual calls. -/
def toBase36Go : Nat → Nat → List Char → List Char
  | 0, n, acc => digit36 (n % 36) :: acc
  | fuel + 1, n, acc =>
    if n < 36 then digit36 n :: acc
    else toBase36Go fuel (n / 36) (digit36 (n % 36) :: acc)

/-- `n.toString(36)` for a natural number `n`, as used on `Date.now()`. -/
def toBase36 (n : Nat) : List Char := toBase36Go n n []

/-- Numeric value of a base-36 digit character. -/
def b36Val (c : Char) : Nat :=
  if 97 ≤ c.toNat then c.toNat - 87 else c.toNat - 48

/-- Reads a base-36 digit string back into a natural number. -/
def fromBase36 (l : List Char) : Nat :=
  l.foldl (fun a c => 36 * a + b36Val c) 0

/-- Characters that can appear in a base-36 rendering: 0-9 and a-z. -/
def b36Char (c : Char) : Bool :=
  (48 ≤ c.toNat && c.toNat ≤ 57) || (97 ≤ c.toNat && c.toNat ≤ 122)

theorem b36Val_digit36 : ∀ d, d < 36 → b36Val (digit36 d) = d := by decide

theorem digit36_b36 : ∀ d, d < 36 → b36Char (digit36 d) = true := by decide

theorem toBase36Go_append (fuel : Nat) :
    ∀ n acc, toBase36Go fuel n acc = toBase36Go fuel n [] ++ acc := by
  induction fuel with
  | zero => intro n acc; simp [toBase36Go]
  | succ f ih =>
    intro n acc
    by_cases h : n < 36
    · simp [toBase36Go, h]
    · simp only [toBase36Go, if_neg h]
      rw [ih (n / 36) (digit36 (n % 36) :: acc), ih (n / 36) [digit36 (n % 36)]]
      simp

theorem fromBase36_toBase36Go :
    ∀ fuel n, n ≤ fuel → fromBase36 (toBase36Go fuel n []) = n := by
  intro fuel
  induction fuel with
  | zero =>
    intro n hn
    have hn0 : n = 0 := Nat.le_zero.mp hn
    subst hn0
    simp [toBase36Go, fromBase36, b36Val_digit36 0 (by norm_num)]
  | succ f ih =>
    intro n hn
    by_cases h : n < 36
    · simp [toBase36Go, h, fromBase36, b36Val_digit36 n h]
    · have hdiv : n / 36 < n := Nat.div_lt_self (by omega) (by norm_num)
      have hle : n / 36 ≤ f := by omega
      have hmod : n % 36 < 36 := Nat.mod_lt _ (by norm_num)
      simp only [toBase36Go, if_neg h]
      rw [toBase36Go_append f (n / 36) [digit36 (n % 36)]]
      simp only [fromBase36, List.foldl_append, List.foldl_cons, List.foldl_nil]
      have := ih (n / 36) hle
      simp only [fromBase36] at this
      rw [this, b36Val_digit36 (n % 36) hmod]
      omega

theorem toBase36_inj {a b : Nat} (h : toBase36 a = toBase36 b) : a = b := by
  have ha := fromBase36_toBase36Go a a le_rfl
  have hb := fromBase36_toBase36Go b b le_rfl
  rw [toBase36, toBase36] at *
  rw [← ha, ← hb, h]

theorem toBase36Go_chars :
    ∀ fuel n acc, (∀ c ∈ acc, b36Char c = true) →
      ∀ c ∈ toBase36Go fuel n acc, b36Char c = true := by
  intro fuel
  induction fuel with
  | zero =>
    intro n acc hacc c hc
    simp only [toBase36Go, List.mem_cons] at hc
    rcases hc with rfl | hc
    · exact digit36_b36 _ (Nat.mod_lt _ (by norm_num))
    · exact hacc c hc
  | succ f ih =>
    intro n acc hacc c hc
    by_cases h : n < 36
    · simp only [toBase36Go, if_pos h, List.mem_cons] at hc
      rcases hc with rfl | hc
      · exact digit36_b36 _ h
      · exact hacc c hc
    · simp only [toBase36Go, if_neg h] at hc
      refine ih (n / 36) _ ?_ c hc
      intro d hd
      simp only [List.mem_cons] at hd
      rcases hd with rfl | hd
      · exact digit36_b36 _ (Nat.mod_lt _ (by norm_num))
      · exact hacc d hd

theorem toBase36_chars (n : Nat) : ∀ c ∈ toBase36 n, b36Char c = true :=
  toBase36Go_chars n n [] (by intro c hc; cases hc)

theorem b36Char_ne {c : Char} (h : b36Char c = true) :
    c ≠ '&' ∧ c ≠ '#' ∧ c ≠ '=' ∧ c ≠ '?' := by
  refine ⟨?_, ?_, ?_, ?_⟩ <;> (rintro rfl; revert h; decide)

/-! ## URL model (WHATWG URL as used by src/utils.js) -/

/-- Splits a character list at the first occurrence of `sep`: returns the part
before it and, when `sep` occurs, the part after it. -/
def splitFirst : List Char → Char → List Char × Option (List Char)
  | [], _ => ([], none)
  | c :: cs, sep =>
    if c = sep then ([], some cs)
    else
      let r := splitFirst cs sep
      (c :: r.1, r.2)

/-- Splits a character list at every occurrence of `sep`. -/
def splitAll : List Char → Char → List (List Char)
  | [], _ => [[]]
  | c :: cs, sep =>
    if c = sep then [] :: splitAll cs sep
    else
      match splitAll cs sep with
      | [] => [[c]]
      | seg :: rest => (c :: seg) :: rest

/-- Joins segments with the ampersand separator (inverse of `splitAll` at
the ampersand). -/
def joinAmp : List (List Char) → List Char
  | [] => []
  | [s] => s
  | s :: t :: rest => s ++ '&' :: joinAmp (t :: rest)

/-- Reads one `key=value` query segment; a segment without an equals sign is a
key with empty value, matching `URLSearchParams`. -/
def parsePair (seg : List Char) : List Char × List Char :=
  let r := splitFirst seg '='
  (r.1, r.2.getD [])

/-- Serialises one query pair as `key=value`. -/
def serPair (p : List Char × List Char) : List Char := p.1 ++ '=' :: p.2

/-- Reads a raw query string into an ordered pair list; empty segments are
skipped, matching `URLSearchParams`. -/
def parseQuery (q : List Char) : List (List Char × List Char) :=
  ((splitAll q '&').filter (fun seg => !seg.isEmpty)).map parsePair

/-- A parsed URL: verbatim stem (scheme://host/path), ordered query parameter
list, optional fragment. -/
structure UrlL where
  stem : List Char
  params : List (List Char × List Char)
  frag : Option (List Char)
deriving DecidableEq, Repr

/-- Whether the stem is an absolute `scheme://host...` URL, modelling the
success condition of the `new URL` constructor on the grammar covered by this
development. -/
def validStem (stemPart : List Char) : Bool :=
  match splitFirst stemPart ':' with
  | (scheme, some rest) =>
    !scheme.isEmpty && scheme.all Char.isAlpha &&
      (match rest with
       | '/' :: '/' :: host => !host.isEmpty
       | _ => false)
  | _ => false

/-- Models `new URL(s)`: fragment split off at the first hash, query at the
first question mark, and the stem validated; `none` models the constructor
throwing. -/
def parseUrl (s : List Char) : Option UrlL :=
  let h := splitFirst s '#'
  let q := splitFirst h.1 '?'
  if validStem q.1 then
    some ⟨q.1, parseQuery (q.2.getD []), h.2⟩
  else none

/-- Models `url.toString()`: the query is re-serialised from the parameter
list and the question mark dropped when the list is empty. -/
def UrlL.render (u : UrlL) : List Char :=
  u.stem
    ++ (if u.params.isEmpty then [] else '?' :: joinAmp (u.params.map serPair))
    ++ (match u.frag with
        | none => []
        | some f => '#' :: f)

/-- Models `url.searchParams.delete(name)`: removes every pair with that key,
keeping the rest in order. -/
def deleteParam (ps : List (List Char × List Char)) (name : List Char) :
    List (List Char × List Char) :=
  ps.filter (fun p => p.1 != name)

/-- Models `url.searchParams.set(name, val)`: overwrites the first pair with
that key and drops later duplicates, or appends when the key is absent. -/
def setParam : List (List Char × List Char) → List Char → List Char →
    List (List Char × List Char)
  | [], name, val => [(name, val)]
  | p :: rest, name, val =>
    if p.1 = name then (name, val) :: deleteParam rest name
    else p :: setParam rest name val

/-- The reserved cache-bust parameter name `_cb`. -/
def cbName : List Char := ['_', 'c', 'b']

/-- The cache-bust marker value: timestamp in base 36 followed by the random
base-36 characters (`Date.now().toString(36)` + the `Math.random` slice). -/
def cbValue (ts : Nat) (rnd : List Char) : List Char := toBase36 ts ++ rnd

/-- Embeds `stripQueryParam` from src/utils.js at the character-list level:
parse, delete the parameter, re-serialise; on parse failure return the input
unchanged. -/
def stripQueryParamL (s : List Char) (param : List Char) : List Char :=
  match parseUrl s with
  | none => s
  | some u => UrlL.render { u with params := deleteParam u.params param }

/-- Embeds `withCacheBuster` from src/utils.js at the character-list level:
strip any `_cb` parameter, then set a fresh `_cb` marker; on parse failure
return the original input unchanged. -/
def withCacheBusterL (s : List Char) (ts : Nat) (rnd : List Char) : List Char :=
  let base := stripQueryParamL s cbName
  match parseUrl base with
  | none => s
  | some u => UrlL.render { u with params := setParam u.params cbName (cbValue ts rnd) }

/-- `stripQueryParam(urlString, param)` from src/utils.js. -/
def stripQueryParam (urlString : String) (param : String) : String :=
  String.mk (stripQueryParamL urlString.toList param.toList)

/-- `withCacheBuster(urlString)` from src/utils.js, with the timestamp and the
random base-36 suffix passed explicitly. -/
def withCacheBuster (urlString : String) (ts : Nat) (rnd : List Char) : String :=
  String.mk (withCacheBusterL urlString.toList ts rnd)

/-! ## Splitting and joining lemmas -/

theorem splitFirst_of_not_mem {l : List Char} {sep : Char} (h : sep ∉ l) :
    splitFirst l sep = (l, none) := by
  induction l with
  | nil => rfl
  | cons c cs ih =>
    have hc : ¬(c = sep) := by rintro rfl; exact h (List.mem_cons_self _ _)
    have hcs : sep ∉ cs := fun hm => h (List.mem_cons_of_mem _ hm)
    simp [splitFirst, hc, ih hcs]

theorem splitFirst_append {p : List Char} {sep : Char} (h : sep ∉ p) (r : List Char) :
    splitFirst (p ++ sep :: r) sep = (p, some r) := by
  induction p with
  | nil => simp [splitFirst]
  | cons c cs ih =>
    have hc : ¬(c = sep) := by rintro rfl; exact h (List.mem_cons_self _ _)
    have hcs : sep ∉ cs := fun hm => h (List.mem_cons_of_mem _ hm)
    simp [splitFirst, hc, ih hcs]

theorem splitFirst_fst_not_mem (l : List Char) (sep : Char) :
    sep ∉ (splitFirst l sep).1 := by
  induction l with
  | nil => simp [splitFirst]
  | cons c cs ih =>
    by_cases hc : c = sep
    · simp [splitFirst, hc]
    · simp only [splitFirst, if_neg hc]
      intro hmem
      rcases List.mem_cons.mp hmem with h | h
      · exact hc h.symm
      · exact ih h

theorem splitFirst_fst_subset (l : List Char) (sep : Char) :
    ∀ c ∈ (splitFirst l sep).1, c ∈ l := by
  induction l with
  | nil => simp [splitFirst]
  | cons c cs ih =>
    by_cases hc : c = sep
    · simp [splitFirst, hc]
    · simp only [splitFirst, if_neg hc]
      intro d hd
      rcases List.mem_cons.mp hd with h | h
      · exact h ▸ List.mem_cons_self _ _
      · exact List.mem_cons_of_mem _ (ih d h)

theorem splitFirst_snd_subset (l : List Char) (sep : Char) (r : List Char)
    (h : (splitFirst l sep).2 = some r) : ∀ c ∈ r, c ∈ l := by
  induction l with
  | nil => simp [splitFirst] at h
  | cons c cs ih =>
    by_cases hc : c = sep
    · simp only [splitFirst, if_pos hc] at h
      cases h
      intro d hd
      exact List.mem_cons_of_mem _ hd
    · simp only [splitFirst, if_neg hc] at h
      intro d hd
      exact List.mem_cons_of_mem _ (ih h d hd)

theorem splitAll_ne_nil (l : List Char) (sep : Char) : splitAll l sep ≠ [] := by
  cases l with
  | nil => simp [splitAll]
  | cons c cs =>
    by_cases hc : c = sep
    · simp [splitAll, hc]
    · simp only [splitAll, if_neg hc]
      cases h : splitAll cs sep <;> simp

theorem splitAll_mem (l : List Char) (sep : Char) :
    ∀ seg ∈ splitAll l sep, sep ∉ seg ∧ ∀ c ∈ seg, c ∈ l := by
  induction l with
  | nil =>
    intro seg hseg
    simp only [splitAll, List.mem_singleton] at hseg
    subst hseg
    simp
  | cons c cs ih =>
    intro seg hseg
    by_cases hc : c = sep
    · simp only [splitAll, if_pos hc, List.mem_cons] at hseg
      rcases hseg with rfl | hseg
      · simp
      · obtain ⟨h1, h2⟩ := ih seg hseg
        exact ⟨h1, fun d hd => List.mem_cons_of_mem _ (h2 d hd)⟩
    · simp only [splitAll, if_neg hc] at hseg
      cases h : splitAll cs sep with
      | nil => exact absurd h (splitAll_ne_nil cs sep)
      | cons seg0 rest =>
        rw [h] at hseg
        rcases List.mem_cons.mp hseg with rfl | hmem
        · obtain ⟨h1, h2⟩ := ih seg0 (h ▸ List.mem_cons_self _ _)
          constructor
          · intro hmem2
            rcases List.mem_cons.mp hmem2 with heq | hmem3
            · exact hc heq.symm
            · exact h1 hmem3
          · intro d hd
            rcases List.mem_cons.mp hd with rfl | hd
            · exact List.mem_cons_self _ _
            · exact List.mem_cons_of_mem _ (h2 d hd)
        · obtain ⟨h1, h2⟩ := ih seg (h ▸ List.mem_cons_of_mem _ hmem)
          exact ⟨h1, fun d hd => List.mem_cons_of_mem _ (h2 d hd)⟩

theorem splitAll_of_not_mem {l : List Char} {sep : Char} (h : sep ∉ l) :
    splitAll l sep = [l] := by
  induction l with
  | nil => rfl
  | cons c cs ih =>
    have hc : ¬(c = sep) := by rintro rfl; exact h (List.mem_cons_self _ _)
    have hcs : sep ∉ cs := fun hm => h (List.mem_cons_of_mem _ hm)
    simp only [splitAll, if_neg hc, ih hcs]

theorem splitAll_append {seg : List Char} {sep : Char} (h : sep ∉ seg) (t : List Char) :
    splitAll (seg ++ sep :: t) sep = seg :: splitAll t sep := by
  induction seg with
  | nil => simp [splitAll]
  | cons c cs ih =>
    have hc : ¬(c = sep) := by rintro rfl; exact h (List.mem_cons_self _ _)
    have hcs : sep ∉ cs := fun hm => h (List.mem_cons_of_mem _ hm)
    simp only [List.cons_append, splitAll, if_neg hc, List.append_eq, ih hcs]

theorem mem_joinAmp (ls : List (List Char)) :
    ∀ c ∈ joinAmp ls, c = '&' ∨ ∃ s ∈ ls, c ∈ s := by
  induction ls with
  | nil => simp [joinAmp]
  | cons s rest ih =>
    intro c hc
    cases rest with
    | nil =>
      simp only [joinAmp] at hc
      exact Or.inr ⟨s, List.mem_cons_self _ _, hc⟩
    | cons t rs =>
      simp only [joinAmp] at hc
      rcases List.mem_append.mp hc with hs | htail
      · exact Or.inr ⟨s, List.mem_cons_self _ _, hs⟩
      · rcases List.mem_cons.mp htail with rfl | hj
        · exact Or.inl rfl
        · rcases ih c hj with h | ⟨s2, hs2, hcs2⟩
          · exact Or.inl h
          · exact Or.inr ⟨s2, List.mem_cons_of_mem _ hs2, hcs2⟩

/-! ## Query round-trip lemmas -/

/-- A query pair whose characters survive serialise-then-reparse: no separator
characters in the key, no ampersand or hash in either component. -/
def goodPair (p : List Char × List Char) : Prop :=
  '&' ∉ p.1 ∧ '=' ∉ p.1 ∧ '#' ∉ p.1 ∧ '&' ∉ p.2 ∧ '#' ∉ p.2

/-- A parsed URL whose rendering reparses to itself; `parseUrl` only produces
such values. -/
def goodUrl (u : UrlL) : Prop :=
  validStem u.stem = true ∧ '#' ∉ u.stem ∧ '?' ∉ u.stem ∧ ∀ p ∈ u.params, goodPair p

theorem parseQuery_good {q : List Char} (hq : '#' ∉ q) :
    ∀ p ∈ parseQuery q, goodPair p := by
  intro p hp
  simp only [parseQuery, List.mem_map, List.mem_filter] at hp
  obtain ⟨seg, ⟨hseg, -⟩, hpp⟩ := hp
  obtain ⟨hamp, hsub⟩ := splitAll_mem q '&' seg hseg
  subst hpp
  have hks : ∀ c ∈ (splitFirst seg '=').1, c ∈ q :=
    fun c hc => hsub c (splitFirst_fst_subset seg '=' c hc)
  refine ⟨?_, ?_, ?_, ?_, ?_⟩
  · exact fun hmem => hamp (splitFirst_fst_subset seg '=' '&' hmem)
  · exact splitFirst_fst_not_mem seg '='
  · exact fun hmem => hq (hks '#' hmem)
  · simp only [parsePair]
    cases hsnd : (splitFirst seg '=').2 with
    | none => simp
    | some r =>
      simp only [Option.getD_some]
      exact fun hmem => hamp (splitFirst_snd_subset seg '=' r hsnd '&' hmem)
  · simp only [parsePair]
    cases hsnd : (splitFirst seg '=').2 with
    | none => simp
    | some r =>
      simp only [Option.getD_some]
      exact fun hmem => hq (hsub '#' (splitFirst_snd_subset seg '=' r hsnd '#' hmem))

theorem serPair_not_isEmpty (p : List Char × List Char) :
    (serPair p).isEmpty = false := by
  obtain ⟨k, v⟩ := p
  cases k <;> simp [serPair]

theorem amp_not_mem_serPair {p : List Char × List Char}
    (h1 : '&' ∉ p.1) (h2 : '&' ∉ p.2) : '&' ∉ serPair p := by
  obtain ⟨k, v⟩ := p
  simp only [serPair, List.mem_append, List.mem_cons]
  rintro (h | h | h)
  · exact h1 h
  · exact absurd h.symm (by decide)
  · exact h2 h

theorem hash_not_mem_serPair {p : List Char × List Char}
    (h1 : '#' ∉ p.1) (h2 : '#' ∉ p.2) : '#' ∉ serPair p := by
  obtain ⟨k, v⟩ := p
  simp only [serPair, List.mem_append, List.mem_cons]
  rintro (h | h | h)
  · exact h1 h
  · exact absurd h.symm (by decide)
  · exact h2 h

theorem parsePair_serPair {p : List Char × List Char} (h : '=' ∉ p.1) :
    parsePair (serPair p) = p := by
  obtain ⟨k, v⟩ := p
  simp [parsePair, serPair, splitFirst_append h v]

theorem parseQuery_joinAmp :
    ∀ ps : List (List Char × List Char),
      (∀ p ∈ ps, '&' ∉ p.1 ∧ '=' ∉ p.1 ∧ '&' ∉ p.2) →
      parseQuery (joinAmp (ps.map serPair)) = ps := by
  intro ps
  induction ps with
  | nil => intro _; rfl
  | cons p rest ih =>
    intro h
    obtain ⟨hp1, hp2, hp3⟩ := h p (List.mem_cons_self _ _)
    have hrest := fun q hq => h q (List.mem_cons_of_mem _ hq)
    have hampser : '&' ∉ serPair p := amp_not_mem_serPair hp1 hp3
    cases rest with
    | nil =>
      simp only [List.map_cons, List.map_nil, joinAmp, parseQuery,
        splitAll_of_not_mem hampser, List.filter_cons, serPair_not_isEmpty p,
        Bool.not_false, List.filter_nil, List.map_cons, List.map_nil,
        if_true, parsePair_serPair hp2]
    | cons q rs =>
      have ihr := ih hrest
      simp only [List.map_cons, joinAmp]
      simp only [parseQuery, splitAll_append hampser, List.filter_cons,
        serPair_not_isEmpty p, Bool.not_false, if_true, List.map_cons,
        parsePair_serPair hp2]
      simp only [parseQuery, List.map_cons] at ihr
      rw [ihr]

/-! ## URL round-trip lemmas -/

theorem parseUrl_good {s : List Char} {u : UrlL} (hp : parseUrl s = some u) :
    goodUrl u := by
  simp only [parseUrl] at hp
  split at hp
  case isFalse => exact absurd hp (by simp)
  case isTrue hv =>
    have hu := Option.some.inj hp
    subst hu
    refine ⟨hv, ?_, ?_, ?_⟩
    · intro hmem
      exact splitFirst_fst_not_mem s '#'
        (splitFirst_fst_subset (splitFirst s '#').1 '?' '#' hmem)
    · exact splitFirst_fst_not_mem (splitFirst s '#').1 '?'
    · refine parseQuery_good ?_
      cases hsnd : (splitFirst (splitFirst s '#').1 '?').2 with
      | none => simp
      | some r =>
        simp only [Option.getD_some]
        intro hmem
        exact splitFirst_fst_not_mem s '#'
          (splitFirst_snd_subset (splitFirst s '#').1 '?' r hsnd '#' hmem)

theorem hash_not_mem_joinAmp {ps : List (List Char × List Char)}
    (h : ∀ p ∈ ps, goodPair p) : '#' ∉ joinAmp (ps.map serPair) := by
  intro hmem
  rcases mem_joinAmp (ps.map serPair) '#' hmem with heq | ⟨s, hs, hcs⟩
  · exact absurd heq (by decide)
  · obtain ⟨p, hp, rfl⟩ := List.mem_map.mp hs
    obtain ⟨-, -, h3, -, h5⟩ := h p hp
    exact hash_not_mem_serPair h3 h5 hcs

theorem render_parse {u : UrlL} (hg : goodUrl u) : parseUrl u.render = some u := by
  obtain ⟨hstem, hhash, hq, hparams⟩ := hg
  have hqpart :
      splitFirst (u.stem ++ (if u.params.isEmpty then []
          else '?' :: joinAmp (u.params.map serPair))) '?' =
        (u.stem, if u.params.isEmpty then none
          else some (joinAmp (u.params.map serPair))) := by
    by_cases hps : u.params.isEmpty
    · simp only [hps, if_true, List.append_nil]
      exact splitFirst_of_not_mem hq
    · simp only [hps, if_false]
      exact splitFirst_append hq _
  have hqhash : '#' ∉ u.stem ++ (if u.params.isEmpty then []
      else '?' :: joinAmp (u.params.map serPair)) := by
    intro hmem
    rcases List.mem_append.mp hmem with h | h
    · exact hhash h
    · by_cases hps : u.params.isEmpty
      · simp [hps] at h
      · rw [if_neg hps] at h
        rcases List.mem_cons.mp h with heq | hj
        · exact absurd heq (by decide)
        · exact hash_not_mem_joinAmp hparams hj
  have hquery : parseQuery ((if u.params.isEmpty then (none : Option (List Char))
      else some (joinAmp (u.params.map serPair))).getD []) = u.params := by
    by_cases hps : u.params.isEmpty
    · have : u.params = [] := by
        cases h : u.params
        · rfl
        · rw [h] at hps; simp at hps
      simp [hps, this, parseQuery, splitAll]
    · simp only [hps, if_false, Option.getD_some]
      refine parseQuery_joinAmp u.params ?_
      intro p hp
      obtain ⟨h1, h2, -, h4, -⟩ := hparams p hp
      exact ⟨h1, h2, h4⟩
  cases hfrag : u.frag with
  | none =>
    have hrender : u.render = u.stem ++ (if u.params.isEmpty then []
        else '?' :: joinAmp (u.params.map serPair)) := by
      simp [UrlL.render, hfrag]
    rw [hrender]
    simp only [parseUrl, splitFirst_of_not_mem hqhash, hqpart]
    simp only [hstem, if_true, hquery]
    cases u with
    | mk stem params frag =>
      simp only at hfrag
      simp [hfrag]
  | some f =>
    have hrender : u.render = (u.stem ++ (if u.params.isEmpty then []
        else '?' :: joinAmp (u.params.map serPair))) ++ '#' :: f := by
      simp [UrlL.render, hfrag]
    rw [hrender]
    simp only [parseUrl, splitFirst_append hqhash f, hqpart]
    simp only [hstem, if_true, hquery]
    cases u with
    | mk stem params frag =>
      simp only at hfrag
      simp [hfrag]

/-! ## Parameter list lemmas and cache-buster composition -/

theorem deleteParam_key_ne (ps : List (List Char × List Char)) (name : List Char) :
    ∀ p ∈ deleteParam ps name, p.1 ≠ name := by
  intro p hp
  have := (List.mem_filter.mp hp).2
  simpa using this

theorem deleteParam_subset (ps : List (List Char × List Char)) (name : List Char) :
    ∀ p ∈ deleteParam ps name, p ∈ ps :=
  fun _p hp => (List.mem_filter.mp hp).1

theorem deleteParam_idem (ps : List (List Char × List Char)) (name : List Char) :
    deleteParam (deleteParam ps name) name = deleteParam ps name := by
  refine List.filter_eq_self.mpr ?_
  intro p hp
  simpa using deleteParam_key_ne ps name p hp

theorem deleteParam_append (ps qs : List (List Char × List Char)) (name : List Char) :
    deleteParam (ps ++ qs) name = deleteParam ps name ++ deleteParam qs name := by
  simp [deleteParam]

theorem setParam_of_absent {ps : List (List Char × List Char)} {name : List Char}
    (h : ∀ p ∈ ps, p.1 ≠ name) (val : List Char) :
    setParam ps name val = ps ++ [(name, val)] := by
  induction ps with
  | nil => rfl
  | cons p rest ih =>
    have hp := h p (List.mem_cons_self _ _)
    simp only [setParam, if_neg hp, List.cons_append]
    rw [ih (fun q hq => h q (List.mem_cons_of_mem _ hq))]

theorem goodUrl_delete {u : UrlL} (hg : goodUrl u) (name : List Char) :
    goodUrl { u with params := deleteParam u.params name } := by
  obtain ⟨h1, h2, h3, h4⟩ := hg
  exact ⟨h1, h2, h3, fun p hp => h4 p (deleteParam_subset u.params name p hp)⟩

theorem goodPair_cb {ts : Nat} {rnd : List Char}
    (hrnd : ∀ c ∈ rnd, b36Char c = true) : goodPair (cbName, cbValue ts rnd) := by
  have hval : ∀ c ∈ cbValue ts rnd, b36Char c = true := by
    intro c hc
    rcases List.mem_append.mp hc with h | h
    · exact toBase36_chars ts c h
    · exact hrnd c h
  refine ⟨?_, ?_, ?_, ?_, ?_⟩
  · show '&' ∉ cbName
    decide
  · show '=' ∉ cbName
    decide
  · show '#' ∉ cbName
    decide
  · intro hmem
    exact (b36Char_ne (hval '&' hmem)).1 rfl
  · intro hmem
    exact (b36Char_ne (hval '#' hmem)).2.1 rfl

theorem stripQueryParamL_parse {s : List Char} {u : UrlL}
    (hp : parseUrl s = some u) (name : List Char) :
    stripQueryParamL s name = UrlL.render { u with params := deleteParam u.params name } := by
  simp [stripQueryParamL, hp]

theorem parse_stripQueryParamL {s : List Char} {u : UrlL}
    (hp : parseUrl s = some u) (name : List Char) :
    parseUrl (stripQueryParamL s name) =
      some { u with params := deleteParam u.params name } := by
  rw [stripQueryParamL_parse hp name]
  exact render_parse (goodUrl_delete (parseUrl_good hp) name)

theorem withCacheBusterL_parse {s : List Char} {u : UrlL}
    (hp : parseUrl s = some u) (ts : Nat) (rnd : List Char) :
    withCacheBusterL s ts rnd =
      UrlL.render { u with
        params := deleteParam u.params cbName ++ [(cbName, cbValue ts rnd)] } := by
  simp only [withCacheBusterL, parse_stripQueryParamL hp cbName]
  rw [setParam_of_absent (deleteParam_key_ne u.params cbName) (cbValue ts rnd)]

theorem parse_withCacheBusterL {s : List Char} {u : UrlL}
    (hp : parseUrl s = some u) {rnd : List Char}
    (hrnd : ∀ c ∈ rnd, b36Char c = true) (ts : Nat) :
    parseUrl (withCacheBusterL s ts rnd) =
      some { u with
        params := deleteParam u.params cbName ++ [(cbName, cbValue ts rnd)] } := by
  rw [withCacheBusterL_parse hp ts rnd]
  refine render_parse ?_
  obtain ⟨h1, h2, h3, h4⟩ := parseUrl_good hp
  refine ⟨h1, h2, h3, ?_⟩
  intro p hpmem
  rcases List.mem_append.mp hpmem with h | h
  · exact h4 p (deleteParam_subset u.params cbName p h)
  · rcases List.mem_singleton.mp h with rfl
    exact goodPair_cb hrnd

theorem stripL_withL {s : List Char} {u : UrlL}
    (hp : parseUrl s = some u) {rnd : List Char}
    (hrnd : ∀ c ∈ rnd, b36Char c = true) (ts : Nat) :
    stripQueryParamL (withCacheBusterL s ts rnd) cbName = stripQueryParamL s cbName := by
  rw [stripQueryParamL_parse (parse_withCacheBusterL hp hrnd ts) cbName,
    stripQueryParamL_parse hp cbName]
  congr 1
  simp only [deleteParam_append, deleteParam_idem]
  rw [show deleteParam [(cbName, cbValue ts rnd)] cbName = [] from rfl]
  simp

/-! ## JavaScript number model and validators (src/utils.js, src/engines.js) -/

/-- A JavaScript number as seen by the validators: NaN, an infinity, or a
finite value (modelled as a rational, which is exact for every comparison the
validators perform). -/
inductive JsNum
  | nan
  | posInf
  | negInf
  | num (q : ℚ)
deriving DecidableEq, Repr

/-- `Number.isFinite`. -/
def JsNum.isFinite : JsNum → Bool
  | .num _ => true
  | _ => false

/-- The JavaScript comparison `n <= 0` (false on NaN). -/
def JsNum.leZero : JsNum → Bool
  | .nan => false
  | .posInf => false
  | .negInf => true
  | .num q => q ≤ 0

/-- `Number.isInteger`. -/
def JsNum.isInteger : JsNum → Bool
  | .num q => q.den = 1
  | _ => false

/-- The JavaScript comparison `n > 65535` (false on NaN). -/
def JsNum.gt65535 : JsNum → Bool
  | .nan => false
  | .posInf => true
  | .negInf => false
  | .num q => 65535 < q

/-- Wraps a string in single quotes, as the source error messages do. -/
def quoted (s : String) : String := sqChar.toString ++ s ++ sqChar.toString

/-- `parseInterval` from src/utils.js; the `Number(value)` string conversion is
abstracted, its result being the argument. -/
def parseInterval (value : JsNum) : Except String JsNum :=
  if !value.isFinite || value.leZero then
    .error "--interval must be a positive number of seconds"
  else .ok value

/-- `validateEngine` from src/utils.js. -/
def validateEngine (value : String) : Except String String :=
  if value != "playwright" && value != "puppeteer" then
    .error ("--engine must be " ++ quoted "playwright" ++ " or " ++ quoted "puppeteer")
  else .ok value

/-- `validateUrlString` from src/utils.js: `new URL(value).toString()`, turned
into an error on parse failure. -/
def validateUrlString (value : String) : Except String String :=
  match parseUrl value.toList with
  | some u => .ok (String.mk u.render)
  | none => .error "<url> must be a valid absolute URL (e.g. https://example.com)"

/-- `normalizePort` from src/engines.js; `none` models `undefined`/`null` and
the `Number(value)` conversion is abstracted as for `parseInterval`. -/
def normalizePort (value : Option JsNum) : Except String (Option JsNum) :=
  match value with
  | none => .ok none
  | some n =>
    if !n.isInteger || n.leZero || n.gt65535 then
      .error "CDP port must be an integer between 1 and 65535"
    else .ok (some n)

/-- `parsePositiveInt` from src/cli.js; `none` models `undefined`/`null`/empty
input. -/
def parsePositiveInt (value : Option JsNum) (label : String) :
    Except String (Option JsNum) :=
  match value with
  | none => .ok none
  | some n =>
    if !n.isInteger || n.leZero then
      .error (label ++ " must be a positive integer")
    else .ok (some n)

/-- The validated configuration object built in src/cli.js (the fields that
can throw during construction plus the boolean flags; the pure string and
list options are omitted). -/
structure Config where
  url : String
  intervalSeconds : JsNum
  cacheBust : Bool
  alwaysReset : Bool
  engine : String
  headless : Bool
  autoInstall : Bool
  userDataDir : String
  cdpPort : Option JsNum
  onlyIfIdle : Bool
  recordMaxBytes : JsNum
  yes : Bool
deriving DecidableEq, Repr

/-- The raw commander options feeding the config block of src/cli.js, with
numeric strings already taken through `Number`. -/
structure RawOpts where
  url : String
  interval : JsNum
  cacheBust : Bool
  alwaysReset : Bool
  engine : String
  headless : Bool
  autoInstall : Bool
  userDataDir : String
  cdpPort : Option JsNum
  onlyIfIdle : Bool
  recordMaxBytes : Option JsNum
  yes : Bool

/-- The config construction of src/cli.js lines 84-103, with the validators
invoked in the evaluation order of the object literal; the first one that
throws aborts the construction. -/
def buildConfig (raw : RawOpts) : Except String Config :=
  match validateUrlString raw.url with
  | .error e => .error e
  | .ok url =>
    match parseInterval raw.interval with
    | .error e => .error e
    | .ok intervalSeconds =>
      match validateEngine raw.engine with
      | .error e => .error e
      | .ok engine =>
        match normalizePort raw.cdpPort with
        | .error e => .error e
        | .ok cdpPort =>
          match parsePositiveInt raw.recordMaxBytes "--record-max-bytes" with
          | .error e => .error e
          | .ok recordMaxBytes =>
            .ok {
              url := url
              intervalSeconds := intervalSeconds
              cacheBust := raw.cacheBust
              alwaysReset := raw.alwaysReset
              engine := engine
              headless := raw.headless
              autoInstall := raw.autoInstall
              userDataDir := raw.userDataDir
              cdpPort := cdpPort
              onlyIfIdle := raw.onlyIfIdle
              recordMaxBytes := recordMaxBytes.getD (JsNum.num 1000000)
              yes := raw.yes }

/-- Outcome of CLI startup: either the config catch block ran (it prints the
message and calls `process.exit(1)` before `main` and thus before any launch),
or control proceeds into `main` with the built config. -/
inductive Startup
  | configError (msg : String)
  | proceed (config : Config)
deriving DecidableEq, Repr

/-- The top level of src/cli.js: build the config inside try/catch; on a throw
exit with code 1 without launching, otherwise run `main`. -/
def cliStartup (raw : RawOpts) : Startup :=
  match buildConfig raw with
  | .error e => .configError e
  | .ok c => .proceed c

/-- Process exit code produced by startup (`some 1` from the catch block,
`none` when the process continues into the main loop). -/
def startupExitCode : Startup → Option Nat
  | .configError _ => some 1
  | .proceed _ => none

/-- Whether startup ever reaches a browser launch. -/
def launchAttempted : Startup → Bool
  | .configError _ => false
  | .proceed _ => true

/-! ## Launch-failure classification and recovery (src/utils.js, src/cli.js) -/

/-- `isMissingEngineError` from src/utils.js, on the error message text. -/
def isMissingEngineError (message engine : String) : Bool :=
  jsIncludes message ("Cannot find package " ++ quoted engine) ||
  jsIncludes message ("Failed to import " ++ quoted engine)

/-- `isPlaywrightMissingBrowserError` from src/utils.js. -/
def isPlaywrightMissingBrowserError (message : String) : Bool :=
  let m := message.toLower
  jsIncludes m "playwright" &&
    (jsIncludes m ("executable doesn" ++ sqChar.toString ++ "t exist") ||
     jsIncludes m "executable doesnt exist" ||
     jsIncludes m "playwright install")

/-- Modelled from the spec: `isPuppeteerMissingBrowserError` is imported by
src/cli.js from src/utils.js, but its definition is missing from the sources.
Section 4.3 of the spec classifies a missing browser binary by inspecting the
message for backend-specific substrings such as the could-not-find-chrome
phrasing, which is also the exact text used by
`isPuppeteerCouldNotFindChromeError` in src/engines.js. -/
def isPuppeteerMissingBrowserError (message : String) : Bool :=
  jsIncludes message.toLower "could not find chrome"

/-- Oracle for one run of `launchWithOptionalInstall`: the result of the first
`launchEngine` call, of the install flow were it invoked, and of the retry
`launchEngine` call were it made.  Sessions are abstracted as numeric ids. -/
structure LaunchWorld where
  firstLaunch : Except String Nat
  installEngineResult : Except String Unit
  installBrowsersResult : Except String Unit
  retryLaunch : Except String Nat

/-- How many `launchEngine` calls and how many install flows actually ran. -/
structure LaunchTrace where
  launchCalls : Nat
  installCalls : Nat
deriving DecidableEq, Repr

/-- `launchWithOptionalInstall` from src/cli.js lines 396-421, with the call
trace recorded.  A thrown install error propagates before any retry, exactly
as an await of `ensureEngineInstalled` rethrows. -/
def launchWithOptionalInstall (engine : String) (autoInstall : Bool)
    (w : LaunchWorld) : Except String Nat × LaunchTrace :=
  match w.firstLaunch with
  | .ok s => (.ok s, ⟨1, 0⟩)
  | .error err =>
    if !autoInstall then (.error err, ⟨1, 0⟩)
    else if isMissingEngineError err engine then
      match w.installEngineResult with
      | .error e => (.error e, ⟨1, 1⟩)
      | .ok _ => (w.retryLaunch, ⟨2, 1⟩)
    else if engine == "playwright" && isPlaywrightMissingBrowserError err then
      match w.installBrowsersResult with
      | .error e => (.error e, ⟨1, 1⟩)
      | .ok _ => (w.retryLaunch, ⟨2, 1⟩)
    else if engine == "puppeteer" && isPuppeteerMissingBrowserError err then
      match w.installBrowsersResult with
      | .error e => (.error e, ⟨1, 1⟩)
      | .ok _ => (w.retryLaunch, ⟨2, 1⟩)
    else (.error err, ⟨1, 0⟩)

/-! ## The refresh loop (src/cli.js main) -/

/-- A browser-driving action issued by one refresh cycle. -/
inductive NavAction
  | goto (url : String)
  | reload
deriving DecidableEq, Repr

/-- The `currentBase` computation of src/cli.js line 578: the guard is the
JavaScript truthiness test `current && current !== "about:blank"`, so `none`
(null/undefined) and the empty string both fall back to the base URL. -/
def currentBaseOf (baseUrl : String) (current : Option String) : String :=
  match current with
  | none => baseUrl
  | some c =>
    if c != "" && c != "about:blank" then stripQueryParam c "_cb" else baseUrl

/-- The navigation decision of one refresh cycle, src/cli.js lines 569-586:
always-reset wins, then cache-bust against the session-reported current URL,
else a plain reload. -/
def refreshTarget (cfg : Config) (baseUrl : String) (current : Option String)
    (ts : Nat) (rnd : List Char) : NavAction :=
  if cfg.alwaysReset then
    NavAction.goto (if cfg.cacheBust then withCacheBuster baseUrl ts rnd else baseUrl)
  else if cfg.cacheBust then
    NavAction.goto (withCacheBuster (currentBaseOf baseUrl current) ts rnd)
  else
    NavAction.reload

/-- Oracle for one iteration of the main `while` loop: the stop flag as read
after the interval sleep and after the idle wait, what `currentUrl()` returns
(or throws), whether the navigation/reload call throws, and the fresh
timestamp and random marker characters. -/
structure CycleEnv where
  stoppedAfterSleep : Bool
  stoppedAfterIdleWait : Bool
  current : Option String
  currentUrlError : Option String
  navError : Option String
  ts : Nat
  rnd : List Char

/-- The try block of src/cli.js lines 568-586, with each await able to throw:
reading the current URL happens inside the try and before the navigation. -/
def tryRefresh (cfg : Config) (baseUrl : String) (env : CycleEnv) :
    Except String NavAction :=
  if cfg.alwaysReset then
    let nextUrl := if cfg.cacheBust then withCacheBuster baseUrl env.ts env.rnd else baseUrl
    match env.navError with
    | some e => .error e
    | none => .ok (.goto nextUrl)
  else if cfg.cacheBust then
    match env.currentUrlError with
    | some e => .error e
    | none =>
      let nextUrl := withCacheBuster (currentBaseOf baseUrl env.current) env.ts env.rnd
      match env.navError with
      | some e => .error e
      | none => .ok (.goto nextUrl)
  else
    match env.navError with
    | some e => .error e
    | none => .ok .reload

/-- What one iteration of the main loop does after its sleep. -/
inductive CycleResult
  | exitLoop
  | continued (logged : Option String)
deriving DecidableEq, Repr

/-- One iteration of the `while (!stopped)` body of src/cli.js lines 555-590:
stop checks after the sleep and after the optional idle wait, then the
try/catch around the refresh step; a caught error is logged and the loop
continues. -/
def loopCycle (cfg : Config) (baseUrl : String) (env : CycleEnv) : CycleResult :=
  if env.stoppedAfterSleep then .exitLoop
  else if cfg.onlyIfIdle && env.stoppedAfterIdleWait then .exitLoop
  else
    match tryRefresh cfg baseUrl env with
    | .error e => .continued (some e)
    | .ok _ => .continued none

/-- The main loop run over a finite trace of cycle oracles: collects the log
entry of every completed cycle and whether the loop exited via the stop flag
inside the trace. -/
def runLoop (cfg : Config) (baseUrl : String) :
    List CycleEnv → List (Option String) × Bool
  | [] => ([], false)
  | env :: rest =>
    match loopCycle cfg baseUrl env with
    | .exitLoop => ([], true)
    | .continued logged =>
      let r := runLoop cfg baseUrl rest
      (logged :: r.1, r.2)

/-! ## Idle wait (src/cli.js waitForIdle) -/

/-- One loop-head observation of `waitForIdle`: the stop flag, `Date.now()`,
and `getLastActivityAt()`, in the order the source reads them. -/
structure IdleObs where
  stopped : Bool
  now : Int
  lastActivityAt : Int
deriving DecidableEq, Repr

instance : Inhabited IdleObs := ⟨⟨false, 0, 0⟩⟩

/-- Why `waitForIdle` returned (or that the observation trace ran out while
it was still polling, as with perpetual background activity). -/
inductive IdleExit
  | idle
  | stoppedEarly
  | traceEnded
deriving DecidableEq, Repr

/-- The sleep duration of one poll: `Math.min(remainingMs, 5000)`. -/
def idleSleep (intervalMs : Int) (o : IdleObs) : Int :=
  min (intervalMs - (o.now - o.lastActivityAt)) 5000

/-- `waitForIdle` from src/cli.js lines 443-456 over a finite observation
trace: returns how the wait ended and the sleep durations performed. -/
def waitForIdle (intervalMs : Int) : List IdleObs → IdleExit × List Int
  | [] => (.traceEnded, [])
  | o :: rest =>
    if o.stopped then (.stoppedEarly, [])
    else if intervalMs ≤ o.now - o.lastActivityAt then (.idle, [])
    else
      let r := waitForIdle intervalMs rest
      (r.1, idleSleep intervalMs o :: r.2)

/-! ## Claim theorems -/

theorem toList_mk (l : List Char) : (String.mk l).toList = l := rfl

/-- A sample configuration with alwaysReset off and cacheBust on; the other
fields are immaterial to the refresh decision. -/
def cfgCacheBust : Config where
  url := "https://x.com/"
  intervalSeconds := JsNum.num 60
  cacheBust := true
  alwaysReset := false
  engine := "playwright"
  headless := false
  autoInstall := false
  userDataDir := ""
  cdpPort := none
  onlyIfIdle := false
  recordMaxBytes := JsNum.num 1000000
  yes := false

/-- Parameter list of a URL string, empty when the string does not parse;
a statement-side helper for reading off query parameters. -/
def paramsOf (s : String) : List (List Char × List Char) :=
  match parseUrl s.toList with
  | none => []
  | some u => u.params

/-- C2: for every string that parses as a URL, stripping the `_cb` marker from
the result of `withCacheBuster` yields the same URL as stripping `_cb` from
the input directly, for every timestamp and every random base-36 suffix the
marker generator can produce. -/
theorem strip_after_withCacheBuster (u : String) (url : UrlL) (ts : Nat)
    (rnd : List Char) (hp : parseUrl u.toList = some url)
    (hrnd : ∀ c ∈ rnd, b36Char c = true) :
    stripQueryParam (withCacheBuster u ts rnd) "_cb" = stripQueryParam u "_cb" := by
  simp only [stripQueryParam, withCacheBuster, toList_mk]
  rw [show ("_cb" : String).toList = cbName from rfl]
  rw [stripL_withL hp hrnd ts]

/-- Witness for C2 at a concrete URL, timestamp and random suffix. -/
theorem strip_after_withCacheBuster_witness :
    parseUrl "https://x.com/a?b=1".toList =
      some ⟨"https://x.com/a".toList, [("b".toList, "1".toList)], none⟩ ∧
    stripQueryParam (withCacheBuster "https://x.com/a?b=1" 100 ['a', 'b', '1', '2']) "_cb" =
      stripQueryParam "https://x.com/a?b=1" "_cb" :=
  ⟨by decide,
   strip_after_withCacheBuster "https://x.com/a?b=1"
     ⟨"https://x.com/a".toList, [("b".toList, "1".toList)], none⟩ 100
     ['a', 'b', '1', '2'] (by decide) (by decide)⟩

/-- C8: a string on which the URL constructor fails passes through both
`stripQueryParam` and `withCacheBuster` unchanged; both functions are total
and never raise. -/
theorem malformed_url_passthrough (u : String) (param : String) (ts : Nat)
    (rnd : List Char) (hp : parseUrl u.toList = none) :
    stripQueryParam u param = u ∧ withCacheBuster u ts rnd = u := by
  have hp2 : parseUrl u.data = none := hp
  have hstrip : ∀ name : List Char, stripQueryParamL u.toList name = u.toList := by
    intro name
    simp [stripQueryParamL, hp2]
  constructor
  · simp only [stripQueryParam, hstrip]
    rfl
  · simp only [withCacheBuster, withCacheBusterL, hstrip cbName, hp]
    rfl

/-- Witness for C8 at a concrete non-URL string. -/
theorem malformed_url_passthrough_witness :
    parseUrl "not-a-url".toList = none ∧
    stripQueryParam "not-a-url" "_cb" = "not-a-url" ∧
    withCacheBuster "not-a-url" 7 ['z'] = "not-a-url" := by
  refine ⟨by decide, ?_, ?_⟩
  · exact (malformed_url_passthrough "not-a-url" "_cb" 7 ['z'] (by decide)).1
  · exact (malformed_url_passthrough "not-a-url" "_cb" 7 ['z'] (by decide)).2

/-- C6: stripping a query parameter removes exactly the pairs with that key
and leaves every other parameter, its value, and the ordering untouched (the
stripped URL reparses to the same stem and fragment with the filtered
parameter list); and in the cache-bust branch with the session reporting
`https://x.com/foo?other=1`, the computed target keeps `other=1` first and
carries exactly one `_cb` parameter. -/
theorem strip_removes_only_param (s : String) (url : UrlL) (name : String)
    (hp : parseUrl s.toList = some url) :
    (parseUrl (stripQueryParam s name).toList =
      some { url with params := deleteParam url.params name.toList }) ∧
    (∀ cfg : Config, cfg.alwaysReset = false → cfg.cacheBust = true →
      refreshTarget cfg "https://x.com/" (some "https://x.com/foo?other=1") 0
          ['a', 'b', 'c', 'd'] =
        NavAction.goto "https://x.com/foo?other=1&_cb=0abcd") ∧
    paramsOf "https://x.com/foo?other=1&_cb=0abcd" =
      [("other".toList, "1".toList), (cbName, '0' :: ['a', 'b', 'c', 'd'])] := by
  refine ⟨?_, ?_, by decide⟩
  · simp only [stripQueryParam, toList_mk]
    exact parse_stripQueryParamL hp name.toList
  · intro cfg h1 h2
    simp only [refreshTarget, h1, h2, if_false, if_true, Bool.false_eq_true]
    decide

/-- Witness for C6 at a concrete URL and parameter. -/
theorem strip_removes_only_param_witness :
    parseUrl "https://x.com/a?u=1&v=2".toList =
      some ⟨"https://x.com/a".toList,
        [("u".toList, "1".toList), ("v".toList, "2".toList)], none⟩ ∧
    parseUrl (stripQueryParam "https://x.com/a?u=1&v=2" "u").toList =
      some ⟨"https://x.com/a".toList, [("v".toList, "2".toList)], none⟩ ∧
    refreshTarget cfgCacheBust "https://x.com/"
        (some "https://x.com/foo?other=1") 0 ['a', 'b', 'c', 'd'] =
      NavAction.goto "https://x.com/foo?other=1&_cb=0abcd" := by
  refine ⟨by decide, ?_, ?_⟩
  · exact (strip_removes_only_param "https://x.com/a?u=1&v=2"
      ⟨"https://x.com/a".toList, [("u".toList, "1".toList), ("v".toList, "2".toList)], none⟩
      "u" (by decide)).1
  · exact ((strip_removes_only_param "https://x.com/a?u=1&v=2"
      ⟨"https://x.com/a".toList, [("u".toList, "1".toList), ("v".toList, "2".toList)], none⟩
      "u" (by decide)).2.1 cfgCacheBust rfl rfl)

/-- C7 counterexample: the random suffix produced by
`Math.random().toString(36).slice(2, 6)` is not always 4 characters long, and
with suffixes of different lengths two calls at different timestamps can
collide: timestamp 36 with suffix 000 and timestamp 46656 with suffix 0 both
yield the marker value 10000 on the same URL. -/
theorem withCacheBuster_collision :
    withCacheBuster "https://x.com/" 36 ['0', '0', '0'] =
      withCacheBuster "https://x.com/" 46656 ['0'] ∧
    (36 : Nat) ≠ 46656 ∧
    (['0', '0', '0'] : List Char).length ≤ 4 ∧ (['0'] : List Char).length ≤ 4 := by
  exact ⟨by decide, by decide, by decide, by decide⟩

/-- C7 (amended): the marker value is the timestamp in base 36 concatenated
with the (at most 4) random base-36 characters, appended as the single `_cb`
parameter; and two calls at different timestamps whose random suffixes have
equal length (in particular the typical 4-character case) never produce
identical outputs on a valid URL. -/
theorem withCacheBuster_distinct (u : String) (url : UrlL) (t1 t2 : Nat)
    (r1 r2 : List Char) (hp : parseUrl u.toList = some url)
    (hb1 : ∀ c ∈ r1, b36Char c = true) (hb2 : ∀ c ∈ r2, b36Char c = true)
    (hlen : r1.length = r2.length) (hne : t1 ≠ t2) :
    (parseUrl (withCacheBuster u t1 r1).toList =
      some { url with
        params := deleteParam url.params cbName ++ [(cbName, toBase36 t1 ++ r1)] }) ∧
    withCacheBuster u t1 r1 ≠ withCacheBuster u t2 r2 := by
  constructor
  · simp only [withCacheBuster, toList_mk]
    exact parse_withCacheBusterL hp hb1 t1
  · intro heq
    have hl : withCacheBusterL u.toList t1 r1 = withCacheBusterL u.toList t2 r2 := by
      have := congrArg String.toList heq
      simpa only [withCacheBuster, toList_mk] using this
    have h1 := parse_withCacheBusterL hp hb1 t1
    have h2 := parse_withCacheBusterL hp hb2 t2
    rw [hl, h2] at h1
    have hu := Option.some.inj h1
    have hparams := congrArg UrlL.params hu
    simp only at hparams
    have hpair := List.append_cancel_left hparams
    have hv : cbValue t2 r2 = cbValue t1 r1 := by
      have := List.head_eq_of_cons_eq hpair
      exact congrArg Prod.snd this
    have hlists : toBase36 t2 ++ r2 = toBase36 t1 ++ r1 := hv
    have htot := congrArg List.length hlists
    simp only [List.length_append, hlen] at htot
    have hlen2 : (toBase36 t2).length = (toBase36 t1).length := by omega
    have hbase : toBase36 t2 = toBase36 t1 := (List.append_inj hlists hlen2).1
    exact hne (toBase36_inj hbase).symm

/-- Witness for C7 (amended) at a concrete URL, timestamps and suffixes. -/
theorem withCacheBuster_distinct_witness :
    (1 : Nat) ≠ 2 ∧
    withCacheBuster "https://x.com/" 1 ['a', 'a', 'a', 'a'] ≠
      withCacheBuster "https://x.com/" 2 ['a', 'a', 'a', 'a'] :=
  ⟨by decide,
   (withCacheBuster_distinct "https://x.com/" ⟨"https://x.com/".toList, [], none⟩
     1 2 ['a', 'a', 'a', 'a'] ['a', 'a', 'a', 'a'] (by decide) (by decide)
     (by decide) rfl (by decide)).2⟩

/-- C1 counterexample: with alwaysReset unset and cacheBust set, a session
reporting the empty string as its current URL is not the blank-page sentinel,
so the claim as stated prescribes strip-and-remark of that current URL; the
code instead falls back to the base URL because the guard tests JavaScript
truthiness, not only the sentinel. -/
theorem refresh_policy_counterexample :
    refreshTarget cfgCacheBust "https://x.com/" (some "") 0 ['a'] ≠
      NavAction.goto (withCacheBuster (stripQueryParam "" "_cb") 0 ['a']) ∧
    ("" : String) ≠ "about:blank" ∧
    refreshTarget cfgCacheBust "https://x.com/" (some "") 0 ['a'] =
      NavAction.goto (withCacheBuster "https://x.com/" 0 ['a']) := by
  exact ⟨by decide, by decide, by decide⟩

/-- C1 (amended): each refresh cycle takes exactly one of three actions fixed
by the configuration.  With alwaysReset the target is the (optionally
markered) base URL, independent of whatever the session would report as its
current URL; otherwise with cacheBust the reported current URL is used after
stripping any old marker, except that a falsy report (null/undefined/empty)
or the blank-page sentinel falls back to the base URL; with neither flag a
plain reload is issued. -/
theorem refreshTarget_policy (cfg : Config) (baseUrl : String)
    (current current2 : Option String) (ts : Nat) (rnd : List Char) :
    (cfg.alwaysReset = true →
      refreshTarget cfg baseUrl current ts rnd =
        NavAction.goto
          (if cfg.cacheBust then withCacheBuster baseUrl ts rnd else baseUrl) ∧
      refreshTarget cfg baseUrl current ts rnd =
        refreshTarget cfg baseUrl current2 ts rnd) ∧
    (cfg.alwaysReset = false → cfg.cacheBust = true →
      ((current = none ∨ current = some "" ∨ current = some "about:blank") →
        refreshTarget cfg baseUrl current ts rnd =
          NavAction.goto (withCacheBuster baseUrl ts rnd)) ∧
      (∀ c : String, current = some c → c ≠ "" → c ≠ "about:blank" →
        refreshTarget cfg baseUrl current ts rnd =
          NavAction.goto (withCacheBuster (stripQueryParam c "_cb") ts rnd))) ∧
    (cfg.alwaysReset = false → cfg.cacheBust = false →
      refreshTarget cfg baseUrl current ts rnd = NavAction.reload) := by
  refine ⟨?_, ?_, ?_⟩
  · intro har
    simp [refreshTarget, har]
  · intro har hcb
    constructor
    · intro hfalsy
      rcases hfalsy with rfl | rfl | rfl <;>
        simp [refreshTarget, har, hcb, currentBaseOf]
    · intro c hc h1 h2
      subst hc
      have hcond : (c != "" && c != "about:blank") = true := by
        simp only [Bool.and_eq_true, bne_iff_ne, ne_eq]
        exact ⟨h1, h2⟩
      simp [refreshTarget, har, hcb, currentBaseOf, hcond]
  · intro har hcb
    simp [refreshTarget, har, hcb]

/-- Witness for C1 (amended) at concrete configuration and session values. -/
theorem refreshTarget_policy_witness :
    refreshTarget cfgCacheBust "https://x.com/" (some "https://y.com/?a=1") 5
        ['z'] =
      NavAction.goto
        (withCacheBuster (stripQueryParam "https://y.com/?a=1" "_cb") 5 ['z']) :=
  ((refreshTarget_policy cfgCacheBust "https://x.com/"
      (some "https://y.com/?a=1") none 5 ['z']).2.1 rfl rfl).2
    "https://y.com/?a=1" rfl (by decide) (by decide)

/-- C10: in the cache-bust branch the fallback to the base URL is taken for
every falsy current-URL report (null/undefined via `none`, or the empty
string), not only for the `about:blank` sentinel, because the guard is the
truthiness test `current && current !== "about:blank"`. -/
theorem currentUrl_falsy_fallback (cfg : Config) (baseUrl : String)
    (current : Option String) (ts : Nat) (rnd : List Char)
    (har : cfg.alwaysReset = false) (hcb : cfg.cacheBust = true)
    (hfalsy : current = none ∨ current = some "" ∨ current = some "about:blank") :
    currentBaseOf baseUrl current = baseUrl ∧
    refreshTarget cfg baseUrl current ts rnd =
      NavAction.goto (withCacheBuster baseUrl ts rnd) := by
  have hbase : currentBaseOf baseUrl current = baseUrl := by
    rcases hfalsy with rfl | rfl | rfl <;> simp [currentBaseOf]
  refine ⟨hbase, ?_⟩
  simp [refreshTarget, har, hcb, hbase]

/-- Witness for C10 at a concrete falsy current URL. -/
theorem currentUrl_falsy_fallback_witness :
    currentBaseOf "https://x.com/" (some "") = "https://x.com/" ∧
    refreshTarget cfgCacheBust "https://x.com/" (some "") 0 ['a'] =
      NavAction.goto (withCacheBuster "https://x.com/" 0 ['a']) :=
  currentUrl_falsy_fallback cfgCacheBust "https://x.com/" (some "") 0 ['a']
    rfl rfl (Or.inr (Or.inl rfl))

/-- C5: an error thrown anywhere in the refresh step (reading the current URL
included, which happens inside the try) is caught at the loop boundary: the
cycle completes as continued-with-logged-error, never as a loop exit, and the
remaining cycles run exactly as they would have; the loop exits only through
the stop flag. -/
theorem refresh_error_isolated (cfg : Config) (baseUrl : String)
    (env : CycleEnv) (rest : List CycleEnv) (e : String)
    (hs1 : env.stoppedAfterSleep = false)
    (hs2 : (cfg.onlyIfIdle && env.stoppedAfterIdleWait) = false)
    (herr : tryRefresh cfg baseUrl env = .error e) :
    loopCycle cfg baseUrl env = CycleResult.continued (some e) ∧
    loopCycle cfg baseUrl env ≠ CycleResult.exitLoop ∧
    runLoop cfg baseUrl (env :: rest) =
      (some e :: (runLoop cfg baseUrl rest).1, (runLoop cfg baseUrl rest).2) ∧
    (cfg.alwaysReset = false → cfg.cacheBust = true →
      ∀ e2 : String, env.currentUrlError = some e2 →
        tryRefresh cfg baseUrl env = .error e2) := by
  have hcycle : loopCycle cfg baseUrl env = CycleResult.continued (some e) := by
    simp [loopCycle, hs1, hs2, herr]
  refine ⟨hcycle, by simp [hcycle], ?_, ?_⟩
  · simp [runLoop, hcycle]
  · intro har hcb e2 hcur
    simp [tryRefresh, har, hcb, hcur]

/-- Witness for C5: a concrete cycle whose current-URL read throws. -/
theorem refresh_error_isolated_witness :
    loopCycle cfgCacheBust "https://x.com/"
        ⟨false, false, none, some "boom", none, 0, ['a']⟩ =
      CycleResult.continued (some "boom") ∧
    runLoop cfgCacheBust "https://x.com/"
        [⟨false, false, none, some "boom", none, 0, ['a']⟩] =
      ([some "boom"], false) := by
  have h := refresh_error_isolated cfgCacheBust "https://x.com/"
    ⟨false, false, none, some "boom", none, 0, ['a']⟩ [] "boom"
    rfl rfl rfl
  exact ⟨h.1, by rw [h.2.2.1]; rfl⟩

/-- C3: over any observation trace, `waitForIdle` sleeps exactly
`min(remaining, 5000)` at every completed poll, and each completed poll saw a
clear stop flag and an idle time still short of the interval; it returns idle
precisely at an observation with the stop flag clear and elapsed idle time at
least the interval, and returns early at an observation with the stop flag
set, in both cases sleeping no further — so a set stop flag ends the wait
within one poll tick. -/
theorem waitForIdle_spec (intervalMs : Int) (obs : List IdleObs) :
    ((waitForIdle intervalMs obs).2.length ≤ obs.length) ∧
    ((waitForIdle intervalMs obs).2 =
      (obs.take (waitForIdle intervalMs obs).2.length).map (idleSleep intervalMs)) ∧
    (∀ o ∈ obs.take (waitForIdle intervalMs obs).2.length,
      o.stopped = false ∧ o.now - o.lastActivityAt < intervalMs) ∧
    ((waitForIdle intervalMs obs).1 = IdleExit.idle →
      (waitForIdle intervalMs obs).2.length < obs.length ∧
      (obs.getD (waitForIdle intervalMs obs).2.length default).stopped = false ∧
      intervalMs ≤ (obs.getD (waitForIdle intervalMs obs).2.length default).now -
        (obs.getD (waitForIdle intervalMs obs).2.length default).lastActivityAt) ∧
    ((waitForIdle intervalMs obs).1 = IdleExit.stoppedEarly →
      (waitForIdle intervalMs obs).2.length < obs.length ∧
      (obs.getD (waitForIdle intervalMs obs).2.length default).stopped = true) := by
  induction obs with
  | nil =>
    refine ⟨by simp [waitForIdle], by simp [waitForIdle], by simp [waitForIdle], ?_, ?_⟩
    · intro h
      simp [waitForIdle] at h
    · intro h
      simp [waitForIdle] at h
  | cons o rest ih =>
    by_cases hs : o.stopped = true
    · have hw : waitForIdle intervalMs (o :: rest) = (.stoppedEarly, []) := by
        simp [waitForIdle, hs]
      refine ⟨by simp [hw], by simp [hw], by simp [hw], ?_, ?_⟩
      · intro h
        rw [hw] at h
        simp at h
      · intro _
        simp [hw, hs]
    · have hs2 : o.stopped = false := by
        cases h : o.stopped
        · rfl
        · exact absurd h hs
      by_cases hi : intervalMs ≤ o.now - o.lastActivityAt
      · have hw : waitForIdle intervalMs (o :: rest) = (.idle, []) := by
          simp [waitForIdle, hs2, hi]
        refine ⟨by simp [hw], by simp [hw], by simp [hw], ?_, ?_⟩
        · intro _
          simp [hw, hs2, hi]
        · intro h
          rw [hw] at h
          simp at h
      · have hw : waitForIdle intervalMs (o :: rest) =
            ((waitForIdle intervalMs rest).1,
              idleSleep intervalMs o :: (waitForIdle intervalMs rest).2) := by
          simp [waitForIdle, hs2, hi]
        obtain ⟨ih1, ih2, ih3, ih4, ih5⟩ := ih
        have hlen : (waitForIdle intervalMs (o :: rest)).2.length =
            (waitForIdle intervalMs rest).2.length + 1 := by
          simp [hw]
        refine ⟨?_, ?_, ?_, ?_, ?_⟩
        · rw [hlen]
          simpa using Nat.succ_le_succ ih1
        · rw [hlen, hw]
          simp only [List.take_succ_cons, List.map_cons]
          exact congrArg _ ih2
        · rw [hlen]
          simp only [List.take_succ_cons]
          intro p hp
          rcases List.mem_cons.mp hp with rfl | hp2
          · exact ⟨hs2, by omega⟩
          · exact ih3 p hp2
        · intro h
          rw [hw] at h
          simp only at h
          obtain ⟨g1, g2, g3⟩ := ih4 h
          rw [hlen]
          refine ⟨by simpa using Nat.succ_lt_succ g1, ?_, ?_⟩
          · simpa using g2
          · simpa using g3
        · intro h
          rw [hw] at h
          simp only at h
          obtain ⟨g1, g2⟩ := ih5 h
          rw [hlen]
          exact ⟨by simpa using Nat.succ_lt_succ g1, by simpa using g2⟩

/-- Witness for C3: a trace that polls once (sleeping 40ms) and then meets a
set stop flag, ending the wait without sleeping again. -/
theorem waitForIdle_spec_witness :
    waitForIdle 50 [⟨false, 10, 0⟩, ⟨true, 20, 0⟩] = (IdleExit.stoppedEarly, [40]) ∧
    ([⟨false, 10, 0⟩, ⟨true, 20, 0⟩] : List IdleObs).getD 1 default = ⟨true, 20, 0⟩ ∧
    (([⟨false, 10, 0⟩, ⟨true, 20, 0⟩] : List IdleObs).getD
      (waitForIdle 50 [⟨false, 10, 0⟩, ⟨true, 20, 0⟩]).2.length default).stopped = true := by
  refine ⟨by decide, by decide, ?_⟩
  exact ((waitForIdle_spec 50 [⟨false, 10, 0⟩, ⟨true, 20, 0⟩]).2.2.2.2 (by decide)).2

/-- The enumerated launch-failure classification of spec section 4.3, realised
by the guard order of `launchWithOptionalInstall`. -/
inductive LaunchFailureClass
  | missingPackage
  | missingBrowserBinary
  | unknownError
deriving DecidableEq, Repr

/-- Classifies a launch-failure message exactly as the guards of
`launchWithOptionalInstall` test it. -/
def classifyLaunchError (err engine : String) : LaunchFailureClass :=
  if isMissingEngineError err engine then .missingPackage
  else if engine == "playwright" && isPlaywrightMissingBrowserError err then
    .missingBrowserBinary
  else if engine == "puppeteer" && isPuppeteerMissingBrowserError err then
    .missingBrowserBinary
  else .unknownError

/-- C4: when the first launch fails, auto-install disabled propagates the
original error after a single launch call and no install; a failure
classified missing-package or missing-browser with auto-install enabled and a
successful install runs exactly one install flow and exactly one retry
launch, whose outcome (success or error) is final with no further recovery;
an unclassified failure propagates unchanged with no install and no retry;
and in every case at most one install and at most two launch calls happen. -/
theorem launchWithOptionalInstall_spec (engine : String) (autoInstall : Bool)
    (w : LaunchWorld) (err : String) (hfail : w.firstLaunch = .error err) :
    (autoInstall = false →
      launchWithOptionalInstall engine autoInstall w =
        (Except.error err, ⟨1, 0⟩)) ∧
    (autoInstall = true →
      classifyLaunchError err engine = .missingPackage →
      w.installEngineResult = .ok () →
      launchWithOptionalInstall engine autoInstall w = (w.retryLaunch, ⟨2, 1⟩)) ∧
    (autoInstall = true →
      classifyLaunchError err engine = .missingBrowserBinary →
      w.installBrowsersResult = .ok () →
      launchWithOptionalInstall engine autoInstall w = (w.retryLaunch, ⟨2, 1⟩)) ∧
    (autoInstall = true →
      classifyLaunchError err engine = .unknownError →
      launchWithOptionalInstall engine autoInstall w =
        (Except.error err, ⟨1, 0⟩)) ∧
    ((launchWithOptionalInstall engine autoInstall w).2.installCalls ≤ 1 ∧
      (launchWithOptionalInstall engine autoInstall w).2.launchCalls ≤ 2) := by
  by_cases h1 : isMissingEngineError err engine = true
  · have hcl : classifyLaunchError err engine = .missingPackage := by
      simp [classifyLaunchError, h1]
    refine ⟨?_, ?_, ?_, ?_, ?_⟩
    · intro ha
      simp [launchWithOptionalInstall, hfail, ha]
    · intro ha _ hinst
      simp [launchWithOptionalInstall, hfail, ha, h1, hinst]
    · intro _ hcl2 _
      rw [hcl] at hcl2
      cases hcl2
    · intro _ hcl2
      rw [hcl] at hcl2
      cases hcl2
    · cases autoInstall
      · simp [launchWithOptionalInstall, hfail]
      · cases hinst : w.installEngineResult with
        | error e => simp [launchWithOptionalInstall, hfail, h1, hinst]
        | ok v => simp [launchWithOptionalInstall, hfail, h1, hinst]
  · by_cases h2 : (engine == "playwright" && isPlaywrightMissingBrowserError err) = true
    · have hcl : classifyLaunchError err engine = .missingBrowserBinary := by
        simp [classifyLaunchError, h1, h2]
      refine ⟨?_, ?_, ?_, ?_, ?_⟩
      · intro ha
        simp [launchWithOptionalInstall, hfail, ha]
      · intro _ hcl2 _
        rw [hcl] at hcl2
        cases hcl2
      · intro ha _ hinst
        simp [launchWithOptionalInstall, hfail, ha, h1, h2, hinst]
      · intro _ hcl2
        rw [hcl] at hcl2
        cases hcl2
      · cases autoInstall
        · simp [launchWithOptionalInstall, hfail]
        · cases hinst : w.installBrowsersResult with
          | error e => simp [launchWithOptionalInstall, hfail, h1, h2, hinst]
          | ok v => simp [launchWithOptionalInstall, hfail, h1, h2, hinst]
    · by_cases h3 : (engine == "puppeteer" && isPuppeteerMissingBrowserError err) = true
      · have hcl : classifyLaunchError err engine = .missingBrowserBinary := by
          simp [classifyLaunchError, h1, h2, h3]
        refine ⟨?_, ?_, ?_, ?_, ?_⟩
        · intro ha
          simp [launchWithOptionalInstall, hfail, ha]
        · intro _ hcl2 _
          rw [hcl] at hcl2
          cases hcl2
        · intro ha _ hinst
          simp [launchWithOptionalInstall, hfail, ha, h1, h2, h3, hinst]
        · intro _ hcl2
          rw [hcl] at hcl2
          cases hcl2
        · cases autoInstall
          · simp [launchWithOptionalInstall, hfail]
          · cases hinst : w.installBrowsersResult with
            | error e => simp [launchWithOptionalInstall, hfail, h1, h2, h3, hinst]
            | ok v => simp [launchWithOptionalInstall, hfail, h1, h2, h3, hinst]
      · have hcl : classifyLaunchError err engine = .unknownError := by
          simp [classifyLaunchError, h1, h2, h3]
        refine ⟨?_, ?_, ?_, ?_, ?_⟩
        · intro ha
          simp [launchWithOptionalInstall, hfail, ha]
        · intro _ hcl2 _
          rw [hcl] at hcl2
          cases hcl2
        · intro _ hcl2 _
          rw [hcl] at hcl2
          cases hcl2
        · intro ha _
          simp [launchWithOptionalInstall, hfail, ha, h1, h2, h3]
        · cases autoInstall
          · simp [launchWithOptionalInstall, hfail]
          · simp [launchWithOptionalInstall, hfail, h1, h2, h3]

/-- A concrete missing-package launch failure message, as thrown by
`launchPlaywright` when the import fails. -/
def launchErrEx : String :=
  "Failed to import " ++ quoted "playwright" ++ ". Install it in this project."

/-- A concrete launch world: first launch fails with the missing-package
message, the install flow succeeds, and the retry launch fails again. -/
def launchWorldEx : LaunchWorld where
  firstLaunch := .error launchErrEx
  installEngineResult := .ok ()
  installBrowsersResult := .ok ()
  retryLaunch := .error "second failure"

/-- Witness for C4: one install, one retry, and the retry failure is final. -/
theorem launchWithOptionalInstall_spec_witness :
    launchWithOptionalInstall "playwright" true launchWorldEx =
      (Except.error "second failure", ⟨2, 1⟩) :=
  (launchWithOptionalInstall_spec "playwright" true launchWorldEx launchErrEx
    rfl).2.1 rfl (by decide) rfl

/-- True exactly on the success case of a fallible computation. -/
def exceptOk {α : Type} : Except String α → Bool
  | .ok _ => true
  | .error _ => false

/-- C9: `parseInterval` succeeds exactly on finite positive numbers,
`normalizePort` passes null through and otherwise succeeds exactly on
integers in [1, 65535], `validateEngine` succeeds exactly on the two engine
names; and an error from any of them aborts the config construction, which
exits with code 1 before any launch is attempted. -/
theorem config_validation_fail_fast :
    (∀ n : JsNum, exceptOk (parseInterval n) = true ↔
      ∃ q : ℚ, n = JsNum.num q ∧ 0 < q) ∧
    normalizePort none = .ok none ∧
    (∀ n : JsNum, exceptOk (normalizePort (some n)) = true ↔
      ∃ q : ℚ, n = JsNum.num q ∧ q.den = 1 ∧ 1 ≤ q ∧ q ≤ 65535) ∧
    (∀ s : String, exceptOk (validateEngine s) = true ↔
      (s = "playwright" ∨ s = "puppeteer")) ∧
    (∀ (raw : RawOpts) (e : String), buildConfig raw = .error e →
      cliStartup raw = .configError e ∧
      startupExitCode (cliStartup raw) = some 1 ∧
      launchAttempted (cliStartup raw) = false) ∧
    (∀ (raw : RawOpts) (e u : String),
      validateUrlString raw.url = .ok u →
      parseInterval raw.interval = .error e →
      buildConfig raw = .error e) ∧
    (∀ (raw : RawOpts) (e u : String) (i : JsNum),
      validateUrlString raw.url = .ok u →
      parseInterval raw.interval = .ok i →
      validateEngine raw.engine = .error e →
      buildConfig raw = .error e) ∧
    (∀ (raw : RawOpts) (e u g : String) (i : JsNum),
      validateUrlString raw.url = .ok u →
      parseInterval raw.interval = .ok i →
      validateEngine raw.engine = .ok g →
      normalizePort raw.cdpPort = .error e →
      buildConfig raw = .error e) := by
  refine ⟨?_, rfl, ?_, ?_, ?_, ?_, ?_, ?_⟩
  · intro n
    cases n with
    | nan => simp [parseInterval, JsNum.isFinite, JsNum.leZero, exceptOk]
    | posInf => simp [parseInterval, JsNum.isFinite, JsNum.leZero, exceptOk]
    | negInf => simp [parseInterval, JsNum.isFinite, JsNum.leZero, exceptOk]
    | num q =>
      by_cases hq : q ≤ 0
      · simp [parseInterval, JsNum.isFinite, JsNum.leZero, exceptOk, hq,
          not_lt.mpr hq]
      · simp [parseInterval, JsNum.isFinite, JsNum.leZero, exceptOk, hq,
          not_le.mp hq]
  · intro n
    cases n with
    | nan => simp [normalizePort, JsNum.isInteger, JsNum.leZero, JsNum.gt65535, exceptOk]
    | posInf => simp [normalizePort, JsNum.isInteger, JsNum.leZero, JsNum.gt65535, exceptOk]
    | negInf => simp [normalizePort, JsNum.isInteger, JsNum.leZero, JsNum.gt65535, exceptOk]
    | num q =>
      by_cases hden : q.den = 1
      · have hint : (q.num : ℚ) = q := by
          conv_rhs => rw [← Rat.num_div_den q]
          rw [hden]
          simp
        by_cases hq : q ≤ 0
        · have h1 : ¬(1 ≤ q) := by
            intro h
            exact absurd (le_trans h hq) (by norm_num)
          simp [normalizePort, JsNum.isInteger, JsNum.leZero, JsNum.gt65535,
            exceptOk, hden, hq, h1]
        · have hqpos : 0 < q := not_le.mp hq
          have h1 : 1 ≤ q := by
            have hnum : 0 < q.num := Rat.num_pos.mpr hqpos
            have : (1 : ℤ) ≤ q.num := hnum
            calc (1 : ℚ) ≤ (q.num : ℚ) := by exact_mod_cast this
              _ = q := hint
          by_cases hbig : 65535 < q
          · simp [normalizePort, JsNum.isInteger, JsNum.leZero, JsNum.gt65535,
              exceptOk, hden, hq, hbig, not_le.mpr hbig]
          · simp [normalizePort, JsNum.isInteger, JsNum.leZero, JsNum.gt65535,
              exceptOk, hden, hq, hbig, h1, not_lt.mp hbig]
      · simp [normalizePort, JsNum.isInteger, exceptOk, hden]
  · intro s
    by_cases h1 : s = "playwright"
    · simp [validateEngine, h1, exceptOk]
    · by_cases h2 : s = "puppeteer"
      · simp [validateEngine, h1, h2, exceptOk]
      · have hb1 : (s != "playwright") = true := by simp [h1]
        have hb2 : (s != "puppeteer") = true := by simp [h2]
        simp [validateEngine, hb1, hb2, exceptOk, h1, h2]
  · intro raw e hbuild
    simp [cliStartup, hbuild, startupExitCode, launchAttempted]
  · intro raw e u hurl hint
    simp [buildConfig, hurl, hint]
  · intro raw e u i hurl hint heng
    simp [buildConfig, hurl, hint, heng]
  · intro raw e u g i hurl hint heng hport
    simp [buildConfig, hurl, hint, heng, hport]

/-- A concrete raw option set whose interval is zero (every other option is
valid). -/
def rawEx : RawOpts where
  url := "https://x.com/"
  interval := JsNum.num 0
  cacheBust := true
  alwaysReset := false
  engine := "playwright"
  headless := false
  autoInstall := false
  userDataDir := ""
  cdpPort := none
  onlyIfIdle := false
  recordMaxBytes := none
  yes := false

/-- Witness for C9: the zero interval aborts startup with exit code 1 and no
launch. -/
theorem config_validation_fail_fast_witness :
    buildConfig rawEx = .error "--interval must be a positive number of seconds" ∧
    cliStartup rawEx = .configError "--interval must be a positive number of seconds" ∧
    startupExitCode (cliStartup rawEx) = some 1 ∧
    launchAttempted (cliStartup rawEx) = false := by
  have hbuild : buildConfig rawEx =
      .error "--interval must be a positive number of seconds" :=
    config_validation_fail_fast.2.2.2.2.2.1 rawEx
      "--interval must be a positive number of seconds" "https://x.com/"
      rfl rfl
  have hrest := config_validation_fail_fast.2.2.2.2.1 rawEx
    "--interval must be a positive number of seconds" hbuild
  exact ⟨hbuild, hrest.1, hrest.2.1, hrest.2.2⟩
